import Mathlib

/-!
Verification of the CoReVo commit-reveal voting contract (`contracts/Corevo.sol`)
and its client-side commitment helpers (`crypto.ts`).

The contract is shallowly embedded: addresses and `bytes32` words are `Nat`
(with `0` as the all-zero sentinel), Solidity mappings are functions with the
zero/default, ledger state is a record, and every external function is a pure
function returning `Except Err (State × List Event)`; a revert (including a
checked-arithmetic panic of Solidity 0.8) returns `.error` and leaves the
state untouched.  `keccak256` is an abstract parameter `List Nat → Nat` over
byte lists.
-/

namespace Corevo

/-- `2^32`, modulus of Solidity `uint32`. -/
def UINT32_MOD : Nat := 4294967296

/-- `2^64`, modulus of Solidity `uint64`. -/
def UINT64_MOD : Nat := 18446744073709551616

/-- `2^256`, modulus of Solidity `uint256`. -/
def UINT256_MOD : Nat := 2 ^ 256

/-- `enum Phase` of `Corevo.sol`. -/
inductive Phase
  | Commit
  | Reveal
  | Finished
deriving DecidableEq, Repr

/-- `struct Proposal` of `Corevo.sol`.  Deadlines are `uint64` timestamps and
the three counters are `uint32`, all held as `Nat`. -/
structure Proposal where
  proposer : Nat
  context : String
  phase : Phase
  isPublic : Bool
  commitDeadline : Nat
  revealDeadline : Nat
  voterCount : Nat
  commitCount : Nat
  revealCount : Nat
deriving DecidableEq, Repr

/-- The default (all-zero) `Proposal` record, the value of an untouched
mapping slot. -/
def defaultProposal : Proposal :=
  { proposer := 0, context := "", phase := Phase.Commit, isPublic := false,
    commitDeadline := 0, revealDeadline := 0,
    voterCount := 0, commitCount := 0, revealCount := 0 }

/-- The custom errors of `Corevo.sol`, plus `Panic` for the implicit
checked-arithmetic revert of Solidity 0.8. -/
inductive Err
  | NoVoters
  | ArrayLengthMismatch
  | InvalidDuration
  | NotInCommitPhase
  | CommitPhaseEnded
  | NotAVoter
  | AlreadyCommitted
  | NotInRevealPhase
  | NotCommitted
  | AlreadyRevealed
  | AlreadyFinished
  | RevealPhaseNotEnded
  | ZeroPubKey
  | ZeroSalt
  | Panic
deriving DecidableEq, Repr

/-- The events of `Corevo.sol`. -/
inductive Event
  | KeyAnnounced (account : Nat) (pubKey : Nat)
  | ProposalCreated (proposalId : Nat) (proposer : Nat) (context : String)
      (isPublic : Bool) (commitDeadline : Nat) (revealDeadline : Nat)
  | VoterInvited (proposalId : Nat) (voter : Nat) (encryptedSalt : List Nat)
  | VoteCommitted (proposalId : Nat) (voter : Nat) (commitment : Nat)
  | SaltRevealed (proposalId : Nat) (voter : Nat) (oneTimeSalt : Nat)
  | ProposalFinished (proposalId : Nat)
deriving DecidableEq, Repr

/-- The contract storage of `Corevo.sol`: `proposalCount` and the mappings
`proposals`, `_voterLists`, `isVoter`, `commitments`, `revealedSalts`,
`encryptionKeys`. -/
structure State where
  proposalCount : Nat
  proposals : Nat → Proposal
  voterLists : Nat → List Nat
  isVoter : Nat → Nat → Bool
  commitments : Nat → Nat → Nat
  revealedSalts : Nat → Nat → Nat
  encryptionKeys : Nat → Nat

/-- Freshly deployed contract: every mapping holds its zero value. -/
def initialState : State :=
  { proposalCount := 0,
    proposals := fun _ => defaultProposal,
    voterLists := fun _ => [],
    isVoter := fun _ _ => false,
    commitments := fun _ _ => 0,
    revealedSalts := fun _ _ => 0,
    encryptionKeys := fun _ => 0 }

/-- `announceKey(bytes32 pubKey)`. -/
def announceKey (s : State) (sender pubKey : Nat) : Except Err (State × List Event) :=
  if pubKey = 0 then .error .ZeroPubKey
  else
    .ok ({ s with encryptionKeys := fun a => if a = sender then pubKey else s.encryptionKeys a },
      [Event.KeyAnnounced sender pubKey])

/-- `createProposal(context, voters, encryptedSalts, isPublic, commitDuration,
revealDuration)` called at ledger time `now` (= `block.timestamp`).  The two
`Panic` branches are the checked `uint64` additions computing the deadlines
(`uint64(block.timestamp)` itself is a truncating cast), and `proposalCount++`
is a checked `uint256` increment.  `voterCount` is the truncating cast
`uint32(voters.length)`.  Returns the new state, the emitted events and the
new proposal id. -/
def createProposal (s : State) (sender : Nat) (context : String) (voters : List Nat)
    (encryptedSalts : List (List Nat)) (isPublic : Bool)
    (commitDuration revealDuration now : Nat) :
    Except Err (State × List Event × Nat) :=
  if voters.length = 0 then .error .NoVoters
  else if voters.length ≠ encryptedSalts.length then .error .ArrayLengthMismatch
  else if commitDuration = 0 ∨ revealDuration = 0 then .error .InvalidDuration
  else if s.proposalCount + 1 = UINT256_MOD then .error .Panic
  else if UINT64_MOD ≤ now % UINT64_MOD + commitDuration then .error .Panic
  else if UINT64_MOD ≤ now % UINT64_MOD + commitDuration + revealDuration then .error .Panic
  else
    let pid := s.proposalCount
    let p : Proposal :=
      { proposer := sender, context := context, phase := Phase.Commit, isPublic := isPublic,
        commitDeadline := now % UINT64_MOD + commitDuration,
        revealDeadline := now % UINT64_MOD + commitDuration + revealDuration,
        voterCount := voters.length % UINT32_MOD, commitCount := 0, revealCount := 0 }
    .ok ({ s with
            proposalCount := s.proposalCount + 1,
            proposals := fun i => if i = pid then p else s.proposals i,
            voterLists := fun i => if i = pid then s.voterLists i ++ voters else s.voterLists i,
            isVoter := fun i a => if i = pid ∧ a ∈ voters then true else s.isVoter i a },
      (voters.zip encryptedSalts).map (fun ve => Event.VoterInvited pid ve.1 ve.2)
        ++ [Event.ProposalCreated pid sender context isPublic
              (now % UINT64_MOD + commitDuration)
              (now % UINT64_MOD + commitDuration + revealDuration)],
      pid)

/-- `commitVote(proposalId, commitment)` called by `sender` at time `now`.
The `Panic` branch is the checked `uint32` increment `p.commitCount++`. -/
def commitVote (s : State) (sender pid commitment now : Nat) :
    Except Err (State × List Event) :=
  let p := s.proposals pid
  if p.phase ≠ Phase.Commit then .error .NotInCommitPhase
  else if p.commitDeadline < now then .error .CommitPhaseEnded
  else if s.isVoter pid sender = false then .error .NotAVoter
  else if s.commitments pid sender ≠ 0 then .error .AlreadyCommitted
  else if p.commitCount + 1 = UINT32_MOD then .error .Panic
  else
    .ok ({ s with
            commitments := fun i a =>
              if i = pid ∧ a = sender then commitment else s.commitments i a,
            proposals := fun i =>
              if i = pid then { p with commitCount := p.commitCount + 1 }
              else s.proposals i },
      [Event.VoteCommitted pid sender commitment])

/-- `revealSalt(proposalId, oneTimeSalt)` called by `sender` at time `now`.
The first two branches inline `_ensureRevealPhase` (lazy `Commit → Reveal`
transition); the `Panic` branch is the checked `uint32` increment
`p.revealCount++`; the final `if` is the auto-finish when every committer has
revealed. -/
def revealSalt (s : State) (sender pid oneTimeSalt now : Nat) :
    Except Err (State × List Event) :=
  let p := s.proposals pid
  if p.phase = Phase.Finished then .error .AlreadyFinished
  else if p.phase = Phase.Commit ∧ now ≤ p.commitDeadline then .error .NotInRevealPhase
  else
    let p1 := if p.phase = Phase.Commit then { p with phase := Phase.Reveal } else p
    if s.commitments pid sender = 0 then .error .NotCommitted
    else if s.revealedSalts pid sender ≠ 0 then .error .AlreadyRevealed
    else if oneTimeSalt = 0 then .error .ZeroSalt
    else if p1.revealCount + 1 = UINT32_MOD then .error .Panic
    else
      let p2 := { p1 with revealCount := p1.revealCount + 1 }
      let p3 := if p2.revealCount = p2.commitCount
                then { p2 with phase := Phase.Finished } else p2
      .ok ({ s with
              revealedSalts := fun i a =>
                if i = pid ∧ a = sender then oneTimeSalt else s.revealedSalts i a,
              proposals := fun i => if i = pid then p3 else s.proposals i },
        if p2.revealCount = p2.commitCount
        then [Event.SaltRevealed pid sender oneTimeSalt, Event.ProposalFinished pid]
        else [Event.SaltRevealed pid sender oneTimeSalt])

/-- `finalizeProposal(proposalId)` called at time `now`. -/
def finalizeProposal (s : State) (pid now : Nat) : Except Err (State × List Event) :=
  let p := s.proposals pid
  if p.phase = Phase.Finished then .error .AlreadyFinished
  else if now ≤ p.revealDeadline then .error .RevealPhaseNotEnded
  else
    .ok ({ s with
            proposals := fun i =>
              if i = pid then { p with phase := Phase.Finished } else s.proposals i },
      [Event.ProposalFinished pid])

/-- Extract the post-state of a successful call, with a fallback for the
error case (used only to name concrete states). -/
def stepOkState (r : Except Err (State × List Event)) (fallback : State) : State :=
  match r with
  | .ok (s, _) => s
  | .error _ => fallback

/-- Extract the post-state of a successful `createProposal`. -/
def createOkState (r : Except Err (State × List Event × Nat)) (fallback : State) : State :=
  match r with
  | .ok (s, _, _) => s
  | .error _ => fallback

/-- One ledger transaction that succeeds.  The parameter `nz` restricts, when
`true`, attention to executions in which every `commitVote` submits a nonzero
commitment (the contract itself never rejects a zero commitment). -/
inductive Step (nz : Bool) : State → State → Prop
  | announce (s : State) (sender pubKey : Nat) (s' : State) (evs : List Event) :
      announceKey s sender pubKey = .ok (s', evs) → Step nz s s'
  | create (s : State) (sender : Nat) (context : String) (voters : List Nat)
      (encryptedSalts : List (List Nat)) (isPublic : Bool) (d1 d2 now : Nat)
      (s' : State) (evs : List Event) (pid : Nat) :
      createProposal s sender context voters encryptedSalts isPublic d1 d2 now
        = .ok (s', evs, pid) → Step nz s s'
  | commit (s : State) (sender pid c now : Nat) (s' : State) (evs : List Event) :
      (nz = true → c ≠ 0) →
      commitVote s sender pid c now = .ok (s', evs) → Step nz s s'
  | reveal (s : State) (sender pid salt now : Nat) (s' : State) (evs : List Event) :
      revealSalt s sender pid salt now = .ok (s', evs) → Step nz s s'
  | finalize (s : State) (pid now : Nat) (s' : State) (evs : List Event) :
      finalizeProposal s pid now = .ok (s', evs) → Step nz s s'

/-- States reachable from a fresh deployment by successful transactions
(`nz` as in `Step`). -/
inductive ReachableW (nz : Bool) : State → Prop
  | init : ReachableW nz initialState
  | step (s s' : State) : ReachableW nz s → Step nz s s' → ReachableW nz s'

/-- States reachable by arbitrary successful transactions. -/
def Reachable : State → Prop := ReachableW false

/-- The set of voters of proposal `pid` holding a nonzero stored commitment. -/
def committedF (s : State) (pid : Nat) : Finset Nat :=
  (s.voterLists pid).toFinset.filter fun a => s.commitments pid a ≠ 0

/-- The set of voters of proposal `pid` holding a nonzero revealed salt. -/
def revealedF (s : State) (pid : Nat) : Finset Nat :=
  (s.voterLists pid).toFinset.filter fun a => s.revealedSalts pid a ≠ 0

/-- The inductive invariant of the contract storage.  `fresh_*` describe the
never-created slots (`pid ≥ proposalCount`), the remaining fields tie the
`uint32` counters to the actual sets of commitments and reveals.  When
`nz = true` (no zero commitment was ever submitted) `commitCount` counts the
stored commitments exactly; in general it only bounds them from above. -/
structure Inv (nz : Bool) (s : State) : Prop where
  fresh_list : ∀ pid, s.proposalCount ≤ pid → s.voterLists pid = []
  fresh_voter : ∀ pid a, s.proposalCount ≤ pid → s.isVoter pid a = false
  fresh_commit : ∀ pid a, s.proposalCount ≤ pid → s.commitments pid a = 0
  fresh_reveal : ∀ pid a, s.proposalCount ≤ pid → s.revealedSalts pid a = 0
  fresh_cc : ∀ pid, s.proposalCount ≤ pid → (s.proposals pid).commitCount = 0
  fresh_rc : ∀ pid, s.proposalCount ≤ pid → (s.proposals pid).revealCount = 0
  fresh_rd : ∀ pid, s.proposalCount ≤ pid → (s.proposals pid).revealDeadline = 0
  fresh_phase : ∀ pid, s.proposalCount ≤ pid → (s.proposals pid).phase ≠ Phase.Reveal
  voter_mem : ∀ pid a, s.isVoter pid a = true ↔ a ∈ s.voterLists pid
  commit_voter : ∀ pid a, s.commitments pid a ≠ 0 → s.isVoter pid a = true
  reveal_commit : ∀ pid a, s.revealedSalts pid a ≠ 0 → s.commitments pid a ≠ 0
  commit_card : ∀ pid, (committedF s pid).card ≤ (s.proposals pid).commitCount
  commit_card_nz : nz = true → ∀ pid, (s.proposals pid).commitCount = (committedF s pid).card
  reveal_card : ∀ pid, (s.proposals pid).revealCount = (revealedF s pid).card
  vc_eq : ∀ pid, (s.proposals pid).voterCount = (s.voterLists pid).length % UINT32_MOD
  cc_lt : ∀ pid, (s.proposals pid).commitCount < UINT32_MOD
  rc_lt : ∀ pid, (s.proposals pid).revealCount < UINT32_MOD

/-! Concrete demonstration states: a proposal with the single voter `1`
(commit window `[0, 10]`, reveal deadline `20`), created by account `9` at
time `0`, then committed to and revealed, plus some variants. -/

/-- State after `createProposal` with voter list `[1]`. -/
def sCreated : State :=
  createOkState (createProposal initialState 9 "demo" [1] [[]] false 10 10 0) initialState

/-- `sCreated` after voter `1` committed the value `42` at time `5`. -/
def sCommitted : State :=
  stepOkState (commitVote sCreated 1 0 42 5) sCreated

/-- `sCommitted` after voter `1` revealed the salt `7` at time `11`
(auto-finish: the only committer has revealed). -/
def sRevealed : State :=
  stepOkState (revealSalt sCommitted 1 0 7 11) sCommitted

/-- `sCreated` after voter `1` committed the all-zero value at time `5`. -/
def sZ1 : State :=
  stepOkState (commitVote sCreated 1 0 0 5) sCreated

/-- `sZ1` after voter `1` committed the all-zero value once more at time `6`. -/
def sZ2 : State :=
  stepOkState (commitVote sZ1 1 0 0 6) sZ1

/-- `initialState` after `finalizeProposal` of the never-created proposal `0`
at time `1`. -/
def sFin0 : State :=
  stepOkState (finalizeProposal initialState 0 1) initialState

/-- `sCreated` after `finalizeProposal` at time `21`: the phase jumps from
`Commit` straight to `Finished` (nobody ever revealed). -/
def sFinC : State :=
  stepOkState (finalizeProposal sCreated 0 21) sCreated

/-- State after `createProposal` by `9` at time `100` with voters `[1, 2]`,
commit duration `10`, reveal duration `20`. -/
def sC8 : State :=
  createOkState (createProposal initialState 9 "budget" [1, 2] [[], []] false 10 20 100)
    initialState

end Corevo

namespace CorevoCrypto

/-! Client-side helpers from `crypto.ts`, over the same abstract `keccak256`.
A `bytes32` word is rendered as its 32 big-endian bytes. -/

/-- The 32 big-endian bytes of a `bytes32` word. -/
def be32 (x : Nat) : List Nat :=
  (List.range 32).map fun i => x / 256 ^ (31 - i) % 256

/-- Solidity `abi.encodePacked(uint8, bytes32, bytes32)` as used by
`Corevo.computeCommitment` in `Corevo.sol`. -/
def solEncodePacked (v a b : Nat) : List Nat :=
  (v % 256) :: (be32 a ++ be32 b)

/-- viem `encodePacked(["uint8", "bytes32", "bytes32"], ...)` as used by
`computeCommitment` in `crypto.ts`. -/
def viemEncodePacked (v a b : Nat) : List Nat :=
  (v % 256) :: (be32 a ++ be32 b)

/-- The on-chain pure helper `Corevo.computeCommitment(uint8 vote, bytes32
oneTimeSalt, bytes32 commonSalt)`; `keccak` abstracts `keccak256`. -/
def contractComputeCommitment (keccak : List Nat → Nat) (vote a b : Nat) : Nat :=
  keccak (solEncodePacked vote a b)

/-- The vote encoding `VOTE = { Aye: 1, Nay: 2, Abstain: 3 }` of `crypto.ts`. -/
inductive Vote
  | Aye
  | Nay
  | Abstain
deriving DecidableEq, Repr

/-- The numeric tag of a vote (`1=Aye, 2=Nay, 3=Abstain`). -/
def Vote.toNat : Vote → Nat
  | .Aye => 1
  | .Nay => 2
  | .Abstain => 3

/-- The client-side `computeCommitment(vote, oneTimeSalt, commonSalt)` of
`crypto.ts`. -/
def computeCommitment (keccak : List Nat → Nat) (v : Vote) (a b : Nat) : Nat :=
  keccak (viemEncodePacked v.toNat a b)

/-- The client-side `verifyVote(commitment, oneTimeSalt, commonSalt)` of
`crypto.ts`: try `Aye`, `Nay`, `Abstain` in order, return the first vote whose
recomputed commitment matches, `none` otherwise. -/
def verifyVote (keccak : List Nat → Nat) (commitment a b : Nat) : Option Vote :=
  [Vote.Aye, Vote.Nay, Vote.Abstain].find? fun v =>
    computeCommitment keccak v a b == commitment

/-- Modelled from the spec: "a single-byte vote tag ... the 32-byte
`oneTimeSalt`, and the 32-byte `commonSalt`, in that order with no length
prefixes" (spec section 4.1, `computeCommitment`). -/
def specPackedCommitment (v : Vote) (a b : Nat) : List Nat :=
  [v.toNat] ++ be32 a ++ be32 b

end CorevoCrypto

namespace Corevo

/-- Successful `announceKey` characterized: the precondition that held and
the exact post-state and events. -/
theorem announceKey_ok {s : State} {sender pubKey : Nat} {s' : State} {evs : List Event}
    (h : announceKey s sender pubKey = .ok (s', evs)) :
    pubKey ≠ 0 ∧
    s' = { s with encryptionKeys := fun a => if a = sender then pubKey else s.encryptionKeys a } ∧
    evs = [Event.KeyAnnounced sender pubKey] := by
  simp only [announceKey] at h
  split_ifs at h with h1
  simp only [Except.ok.injEq, Prod.mk.injEq] at h
  exact ⟨h1, h.1.symm, h.2.symm⟩

/-- Successful `createProposal` characterized. -/
theorem createProposal_ok {s : State} {sender : Nat} {context : String} {voters : List Nat}
    {encryptedSalts : List (List Nat)} {isPublic : Bool} {d1 d2 now : Nat}
    {s' : State} {evs : List Event} {pid : Nat}
    (h : createProposal s sender context voters encryptedSalts isPublic d1 d2 now
          = .ok (s', evs, pid)) :
    voters.length ≠ 0 ∧ voters.length = encryptedSalts.length ∧ d1 ≠ 0 ∧ d2 ≠ 0 ∧
    now % UINT64_MOD + d1 < UINT64_MOD ∧
    now % UINT64_MOD + d1 + d2 < UINT64_MOD ∧
    pid = s.proposalCount ∧
    s' = { s with
            proposalCount := s.proposalCount + 1,
            proposals := fun i =>
              if i = s.proposalCount then
                { proposer := sender, context := context, phase := Phase.Commit,
                  isPublic := isPublic,
                  commitDeadline := now % UINT64_MOD + d1,
                  revealDeadline := now % UINT64_MOD + d1 + d2,
                  voterCount := voters.length % UINT32_MOD,
                  commitCount := 0, revealCount := 0 }
              else s.proposals i,
            voterLists := fun i =>
              if i = s.proposalCount then s.voterLists i ++ voters else s.voterLists i,
            isVoter := fun i a =>
              if i = s.proposalCount ∧ a ∈ voters then true else s.isVoter i a } ∧
    evs = (voters.zip encryptedSalts).map
            (fun ve => Event.VoterInvited s.proposalCount ve.1 ve.2)
          ++ [Event.ProposalCreated s.proposalCount sender context isPublic
                (now % UINT64_MOD + d1) (now % UINT64_MOD + d1 + d2)] := by
  simp only [createProposal] at h
  split_ifs at h with h1 h2 h3 h4 h5 h6
  simp only [Except.ok.injEq, Prod.mk.injEq] at h
  push_neg at h3
  exact ⟨h1, not_ne_iff.mp h2, h3.1, h3.2, not_le.mp h5, not_le.mp h6,
    h.2.2.symm, h.1.symm, h.2.1.symm⟩

/-- Successful `commitVote` characterized: all four preconditions (and the
absence of `uint32` overflow) held, the commitment is stored verbatim and
`commitCount` is incremented. -/
theorem commitVote_ok {s : State} {sender pid c now : Nat} {s' : State} {evs : List Event}
    (h : commitVote s sender pid c now = .ok (s', evs)) :
    (s.proposals pid).phase = Phase.Commit ∧
    now ≤ (s.proposals pid).commitDeadline ∧
    s.isVoter pid sender = true ∧
    s.commitments pid sender = 0 ∧
    (s.proposals pid).commitCount + 1 ≠ UINT32_MOD ∧
    s' = { s with
            commitments := fun i a =>
              if i = pid ∧ a = sender then c else s.commitments i a,
            proposals := fun i =>
              if i = pid then
                { s.proposals pid with commitCount := (s.proposals pid).commitCount + 1 }
              else s.proposals i } ∧
    evs = [Event.VoteCommitted pid sender c] := by
  simp only [commitVote] at h
  split_ifs at h with h1 h2 h3 h4 h5
  simp only [Except.ok.injEq, Prod.mk.injEq] at h
  exact ⟨not_ne_iff.mp h1, not_lt.mp h2, Bool.not_eq_false _ |>.mp h3,
    not_ne_iff.mp h4, h5, h.1.symm, h.2.symm⟩

set_option maxHeartbeats 1600000 in
/-- Successful `revealSalt` characterized, field by field: the proposal was
not `Finished`, the commit deadline had passed when the phase was still
`Commit`, the caller had committed and not yet revealed, the salt is nonzero
and stored verbatim, `revealCount` is incremented, and the phase becomes
`Finished` exactly when the new `revealCount` equals `commitCount` (else
`Reveal`). -/
theorem revealSalt_ok {s : State} {sender pid salt now : Nat} {s' : State} {evs : List Event}
    (h : revealSalt s sender pid salt now = .ok (s', evs)) :
    (s.proposals pid).phase ≠ Phase.Finished ∧
    ((s.proposals pid).phase = Phase.Commit → (s.proposals pid).commitDeadline < now) ∧
    s.commitments pid sender ≠ 0 ∧
    s.revealedSalts pid sender = 0 ∧
    salt ≠ 0 ∧
    (s.proposals pid).revealCount + 1 ≠ UINT32_MOD ∧
    s'.proposalCount = s.proposalCount ∧
    s'.voterLists = s.voterLists ∧
    s'.isVoter = s.isVoter ∧
    s'.commitments = s.commitments ∧
    s'.revealedSalts = (fun i a => if i = pid ∧ a = sender then salt else s.revealedSalts i a) ∧
    (∀ i, i ≠ pid → s'.proposals i = s.proposals i) ∧
    (s'.proposals pid).revealCount = (s.proposals pid).revealCount + 1 ∧
    (s'.proposals pid).commitCount = (s.proposals pid).commitCount ∧
    (s'.proposals pid).voterCount = (s.proposals pid).voterCount ∧
    (s'.proposals pid).commitDeadline = (s.proposals pid).commitDeadline ∧
    (s'.proposals pid).revealDeadline = (s.proposals pid).revealDeadline ∧
    (s'.proposals pid).phase
      = (if (s.proposals pid).revealCount + 1 = (s.proposals pid).commitCount
         then Phase.Finished else Phase.Reveal) ∧
    evs = (if (s.proposals pid).revealCount + 1 = (s.proposals pid).commitCount
           then [Event.SaltRevealed pid sender salt, Event.ProposalFinished pid]
           else [Event.SaltRevealed pid sender salt]) := by
  have hph : (s.proposals pid).phase = Phase.Commit ∨
      (s.proposals pid).phase = Phase.Reveal ∨
      (s.proposals pid).phase = Phase.Finished := by
    cases (s.proposals pid).phase
    · exact Or.inl rfl
    · exact Or.inr (Or.inl rfl)
    · exact Or.inr (Or.inr rfl)
  simp only [revealSalt] at h
  split_ifs at h with h1 h2 h3 h4 h5 h6 h7 h8 h9 h10
  · dsimp only at h h7 h8
    push_neg at h2
    simp only [Except.ok.injEq, Prod.mk.injEq] at h
    obtain ⟨hs, he⟩ := h
    subst hs
    subst he
    refine ⟨h1, h2, h3, not_ne_iff.mp h4, h5, h7, rfl, rfl, rfl, rfl, rfl,
      fun i hi => by dsimp only; rw [if_neg hi],
      by dsimp only; rw [if_pos rfl], by dsimp only; rw [if_pos rfl],
      by dsimp only; rw [if_pos rfl], by dsimp only; rw [if_pos rfl],
      by dsimp only; rw [if_pos rfl], ?_, ?_⟩
    · dsimp only
      rw [if_pos rfl, if_pos h8]
    · rw [if_pos h8]
  · dsimp only at h h7 h8
    push_neg at h2
    simp only [Except.ok.injEq, Prod.mk.injEq] at h
    obtain ⟨hs, he⟩ := h
    subst hs
    subst he
    refine ⟨h1, h2, h3, not_ne_iff.mp h4, h5, h7, rfl, rfl, rfl, rfl, rfl,
      fun i hi => by dsimp only; rw [if_neg hi],
      by dsimp only; rw [if_pos rfl], by dsimp only; rw [if_pos rfl],
      by dsimp only; rw [if_pos rfl], by dsimp only; rw [if_pos rfl],
      by dsimp only; rw [if_pos rfl], ?_, ?_⟩
    · dsimp only
      rw [if_pos rfl, if_neg h8]
    · rw [if_neg h8]
  · try dsimp only at h
    push_neg at h2
    simp only [Except.ok.injEq, Prod.mk.injEq] at h
    obtain ⟨hs, he⟩ := h
    subst hs
    subst he
    refine ⟨h1, h2, h3, not_ne_iff.mp h4, h5, h9, rfl, rfl, rfl, rfl, rfl,
      fun i hi => by dsimp only; rw [if_neg hi],
      by dsimp only; rw [if_pos rfl], by dsimp only; rw [if_pos rfl],
      by dsimp only; rw [if_pos rfl], by dsimp only; rw [if_pos rfl],
      by dsimp only; rw [if_pos rfl], ?_, ?_⟩
    · dsimp only
      rw [if_pos rfl, if_pos h10]
    · rw [if_pos h10]
  · try dsimp only at h
    push_neg at h2
    simp only [Except.ok.injEq, Prod.mk.injEq] at h
    obtain ⟨hs, he⟩ := h
    subst hs
    subst he
    refine ⟨h1, h2, h3, not_ne_iff.mp h4, h5, h9, rfl, rfl, rfl, rfl, rfl,
      fun i hi => by dsimp only; rw [if_neg hi],
      by dsimp only; rw [if_pos rfl], by dsimp only; rw [if_pos rfl],
      by dsimp only; rw [if_pos rfl], by dsimp only; rw [if_pos rfl],
      by dsimp only; rw [if_pos rfl], ?_, ?_⟩
    · dsimp only
      rw [if_pos rfl, if_neg h10]
      rcases hph with hq | hq | hq
      · exact absurd hq h6
      · exact hq
      · exact absurd hq h1
    · rw [if_neg h10]

/-- Successful `finalizeProposal` characterized. -/
theorem finalizeProposal_ok {s : State} {pid now : Nat} {s' : State} {evs : List Event}
    (h : finalizeProposal s pid now = .ok (s', evs)) :
    (s.proposals pid).phase ≠ Phase.Finished ∧
    (s.proposals pid).revealDeadline < now ∧
    s' = { s with
            proposals := fun i =>
              if i = pid then { s.proposals pid with phase := Phase.Finished }
              else s.proposals i } ∧
    evs = [Event.ProposalFinished pid] := by
  simp only [finalizeProposal] at h
  split_ifs at h with h1 h2
  simp only [Except.ok.injEq, Prod.mk.injEq] at h
  exact ⟨h1, not_le.mp h2, h.1.symm, h.2.symm⟩

/-- Membership in the committed-voter set. -/
theorem mem_committedF {s : State} {pid a : Nat} :
    a ∈ committedF s pid ↔ a ∈ s.voterLists pid ∧ s.commitments pid a ≠ 0 := by
  simp [committedF]

/-- Membership in the revealed-voter set. -/
theorem mem_revealedF {s : State} {pid a : Nat} :
    a ∈ revealedF s pid ↔ a ∈ s.voterLists pid ∧ s.revealedSalts pid a ≠ 0 := by
  simp [revealedF]

/-- Filtering a list by nonzero value of two pointwise-equal maps gives the
same set. -/
theorem filter_ne_congr {l : List Nat} {f g : Nat → Nat} (hfg : ∀ a, a ∈ l → f a = g a) :
    l.toFinset.filter (fun a => f a ≠ 0) = l.toFinset.filter (fun a => g a ≠ 0) := by
  apply Finset.filter_congr
  intro a ha
  rw [List.mem_toFinset] at ha
  rw [hfg a ha]

/-- The invariant holds in the initial state. -/
theorem inv_init (nz : Bool) : Inv nz initialState := by
  refine ⟨?_, ?_, ?_, ?_, ?_, ?_, ?_, ?_, ?_, ?_, ?_, ?_, ?_, ?_, ?_, ?_, ?_⟩ <;>
    intros <;>
    simp_all [initialState, defaultProposal, committedF, revealedF, UINT32_MOD]

/-- `announceKey` preserves the invariant. -/
theorem inv_announce {nz : Bool} {s : State} {sender pubKey : Nat} {s' : State}
    {evs : List Event} (hInv : Inv nz s)
    (h : announceKey s sender pubKey = .ok (s', evs)) : Inv nz s' := by
  obtain ⟨-, hs, -⟩ := announceKey_ok h
  subst hs
  exact ⟨hInv.fresh_list, hInv.fresh_voter, hInv.fresh_commit, hInv.fresh_reveal,
    hInv.fresh_cc, hInv.fresh_rc, hInv.fresh_rd, hInv.fresh_phase, hInv.voter_mem,
    hInv.commit_voter, hInv.reveal_commit, hInv.commit_card, hInv.commit_card_nz,
    hInv.reveal_card, hInv.vc_eq, hInv.cc_lt, hInv.rc_lt⟩

/-- `finalizeProposal` preserves the invariant. -/
theorem inv_finalize {nz : Bool} {s : State} {pid0 now : Nat} {s' : State}
    {evs : List Event} (hInv : Inv nz s)
    (h : finalizeProposal s pid0 now = .ok (s', evs)) : Inv nz s' := by
  obtain ⟨-, -, hs, -⟩ := finalizeProposal_ok h
  subst hs
  have hprop : ∀ pid, ((fun i => if i = pid0
      then { s.proposals pid0 with phase := Phase.Finished } else s.proposals i) pid).commitCount
        = (s.proposals pid).commitCount ∧
      ((fun i => if i = pid0
      then { s.proposals pid0 with phase := Phase.Finished } else s.proposals i) pid).revealCount
        = (s.proposals pid).revealCount ∧
      ((fun i => if i = pid0
      then { s.proposals pid0 with phase := Phase.Finished } else s.proposals i) pid).voterCount
        = (s.proposals pid).voterCount ∧
      ((fun i => if i = pid0
      then { s.proposals pid0 with phase := Phase.Finished } else s.proposals i) pid).revealDeadline
        = (s.proposals pid).revealDeadline := by
    intro pid
    dsimp only
    by_cases hp : pid = pid0
    · subst hp
      rw [if_pos rfl]
      exact ⟨rfl, rfl, rfl, rfl⟩
    · rw [if_neg hp]
      exact ⟨rfl, rfl, rfl, rfl⟩
  refine ⟨hInv.fresh_list, hInv.fresh_voter, hInv.fresh_commit, hInv.fresh_reveal,
    fun pid hle => ((hprop pid).1).trans (hInv.fresh_cc pid hle),
    fun pid hle => ((hprop pid).2.1).trans (hInv.fresh_rc pid hle),
    fun pid hle => ((hprop pid).2.2.2).trans (hInv.fresh_rd pid hle),
    ?_, hInv.voter_mem, hInv.commit_voter, hInv.reveal_commit,
    fun pid => ((hprop pid).1).symm ▸ hInv.commit_card pid,
    fun hnz pid => ((hprop pid).1).trans (hInv.commit_card_nz hnz pid),
    fun pid => ((hprop pid).2.1).trans (hInv.reveal_card pid),
    fun pid => ((hprop pid).2.2.1).trans (hInv.vc_eq pid),
    fun pid => ((hprop pid).1) ▸ hInv.cc_lt pid,
    fun pid => ((hprop pid).2.1) ▸ hInv.rc_lt pid⟩
  intro pid hle
  dsimp only
  by_cases hp : pid = pid0
  · subst hp
    rw [if_pos rfl]
    intro hcontra
    exact Phase.noConfusion hcontra
  · rw [if_neg hp]
    exact hInv.fresh_phase pid hle

/-- `createProposal` preserves the invariant. -/
theorem inv_create {nz : Bool} {s : State} {sender : Nat} {context : String}
    {voters : List Nat} {encryptedSalts : List (List Nat)} {isPublic : Bool}
    {d1 d2 now : Nat} {s' : State} {evs : List Event} {retPid : Nat} (hInv : Inv nz s)
    (h : createProposal s sender context voters encryptedSalts isPublic d1 d2 now
          = .ok (s', evs, retPid)) : Inv nz s' := by
  obtain ⟨-, -, -, -, -, -, -, hs, -⟩ := createProposal_ok h
  subst hs
  refine
    { fresh_list := ?_, fresh_voter := ?_, fresh_commit := ?_, fresh_reveal := ?_,
      fresh_cc := ?_, fresh_rc := ?_, fresh_rd := ?_, fresh_phase := ?_,
      voter_mem := ?_, commit_voter := ?_, reveal_commit := ?_,
      commit_card := ?_, commit_card_nz := ?_, reveal_card := ?_,
      vc_eq := ?_, cc_lt := ?_, rc_lt := ?_ }
  · intro pid hle
    dsimp only at hle ⊢
    rw [if_neg (show pid ≠ s.proposalCount by omega)]
    exact hInv.fresh_list pid (by omega)
  · intro pid a hle
    dsimp only at hle ⊢
    rw [if_neg (show ¬(pid = s.proposalCount ∧ a ∈ voters) from
      fun hx => absurd hx.1 (by omega))]
    exact hInv.fresh_voter pid a (by omega)
  · intro pid a hle
    dsimp only at hle ⊢
    exact hInv.fresh_commit pid a (by omega)
  · intro pid a hle
    dsimp only at hle ⊢
    exact hInv.fresh_reveal pid a (by omega)
  · intro pid hle
    dsimp only at hle ⊢
    rw [if_neg (show pid ≠ s.proposalCount by omega)]
    exact hInv.fresh_cc pid (by omega)
  · intro pid hle
    dsimp only at hle ⊢
    rw [if_neg (show pid ≠ s.proposalCount by omega)]
    exact hInv.fresh_rc pid (by omega)
  · intro pid hle
    dsimp only at hle ⊢
    rw [if_neg (show pid ≠ s.proposalCount by omega)]
    exact hInv.fresh_rd pid (by omega)
  · intro pid hle
    dsimp only at hle ⊢
    rw [if_neg (show pid ≠ s.proposalCount by omega)]
    exact hInv.fresh_phase pid (by omega)
  · intro pid a
    dsimp only
    by_cases hp : pid = s.proposalCount
    · subst hp
      rw [if_pos rfl, hInv.fresh_list s.proposalCount le_rfl]
      by_cases hm : a ∈ voters
      · rw [if_pos ⟨rfl, hm⟩]
        simp [hm]
      · rw [if_neg (fun hx => hm hx.2), hInv.fresh_voter s.proposalCount a le_rfl]
        simp [hm]
    · rw [if_neg hp, if_neg (fun hx => hp hx.1)]
      exact hInv.voter_mem pid a
  · intro pid a hcne
    dsimp only at hcne ⊢
    by_cases hc : pid = s.proposalCount ∧ a ∈ voters
    · rw [if_pos hc]
    · rw [if_neg hc]
      exact hInv.commit_voter pid a hcne
  · intro pid a hrne
    dsimp only at hrne ⊢
    exact hInv.reveal_commit pid a hrne
  · intro pid
    dsimp only
    by_cases hp : pid = s.proposalCount
    · subst hp
      rw [if_pos rfl]
      have hempty : committedF
          { s with
              proposalCount := s.proposalCount + 1,
              proposals := fun i =>
                if i = s.proposalCount then
                  { proposer := sender, context := context, phase := Phase.Commit,
                    isPublic := isPublic,
                    commitDeadline := now % UINT64_MOD + d1,
                    revealDeadline := now % UINT64_MOD + d1 + d2,
                    voterCount := voters.length % UINT32_MOD,
                    commitCount := 0, revealCount := 0 }
                else s.proposals i,
              voterLists := fun i =>
                if i = s.proposalCount then s.voterLists i ++ voters else s.voterLists i,
              isVoter := fun i a =>
                if i = s.proposalCount ∧ a ∈ voters then true else s.isVoter i a }
          s.proposalCount = ∅ := by
        rw [Finset.eq_empty_iff_forall_not_mem]
        intro a ha
        rw [mem_committedF] at ha
        exact ha.2 (hInv.fresh_commit s.proposalCount a le_rfl)
      rw [hempty]
      simp
    · have hset : committedF
          { s with
              proposalCount := s.proposalCount + 1,
              proposals := fun i =>
                if i = s.proposalCount then
                  { proposer := sender, context := context, phase := Phase.Commit,
                    isPublic := isPublic,
                    commitDeadline := now % UINT64_MOD + d1,
                    revealDeadline := now % UINT64_MOD + d1 + d2,
                    voterCount := voters.length % UINT32_MOD,
                    commitCount := 0, revealCount := 0 }
                else s.proposals i,
              voterLists := fun i =>
                if i = s.proposalCount then s.voterLists i ++ voters else s.voterLists i,
              isVoter := fun i a =>
                if i = s.proposalCount ∧ a ∈ voters then true else s.isVoter i a }
          pid = committedF s pid := by
        simp only [committedF]
        dsimp only
        rw [if_neg hp]
      rw [hset, if_neg hp]
      exact hInv.commit_card pid
  · intro hnz pid
    dsimp only
    by_cases hp : pid = s.proposalCount
    · subst hp
      rw [if_pos rfl]
      have hempty : committedF
          { s with
              proposalCount := s.proposalCount + 1,
              proposals := fun i =>
                if i = s.proposalCount then
                  { proposer := sender, context := context, phase := Phase.Commit,
                    isPublic := isPublic,
                    commitDeadline := now % UINT64_MOD + d1,
                    revealDeadline := now % UINT64_MOD + d1 + d2,
                    voterCount := voters.length % UINT32_MOD,
                    commitCount := 0, revealCount := 0 }
                else s.proposals i,
              voterLists := fun i =>
                if i = s.proposalCount then s.voterLists i ++ voters else s.voterLists i,
              isVoter := fun i a =>
                if i = s.proposalCount ∧ a ∈ voters then true else s.isVoter i a }
          s.proposalCount = ∅ := by
        rw [Finset.eq_empty_iff_forall_not_mem]
        intro a ha
        rw [mem_committedF] at ha
        exact ha.2 (hInv.fresh_commit s.proposalCount a le_rfl)
      rw [hempty]
      simp
    · have hset : committedF
          { s with
              proposalCount := s.proposalCount + 1,
              proposals := fun i =>
                if i = s.proposalCount then
                  { proposer := sender, context := context, phase := Phase.Commit,
                    isPublic := isPublic,
                    commitDeadline := now % UINT64_MOD + d1,
                    revealDeadline := now % UINT64_MOD + d1 + d2,
                    voterCount := voters.length % UINT32_MOD,
                    commitCount := 0, revealCount := 0 }
                else s.proposals i,
              voterLists := fun i =>
                if i = s.proposalCount then s.voterLists i ++ voters else s.voterLists i,
              isVoter := fun i a =>
                if i = s.proposalCount ∧ a ∈ voters then true else s.isVoter i a }
          pid = committedF s pid := by
        simp only [committedF]
        dsimp only
        rw [if_neg hp]
      rw [hset, if_neg hp]
      exact hInv.commit_card_nz hnz pid
  · intro pid
    dsimp only
    by_cases hp : pid = s.proposalCount
    · subst hp
      rw [if_pos rfl]
      have hempty : revealedF
          { s with
              proposalCount := s.proposalCount + 1,
              proposals := fun i =>
                if i = s.proposalCount then
                  { proposer := sender, context := context, phase := Phase.Commit,
                    isPublic := isPublic,
                    commitDeadline := now % UINT64_MOD + d1,
                    revealDeadline := now % UINT64_MOD + d1 + d2,
                    voterCount := voters.length % UINT32_MOD,
                    commitCount := 0, revealCount := 0 }
                else s.proposals i,
              voterLists := fun i =>
                if i = s.proposalCount then s.voterLists i ++ voters else s.voterLists i,
              isVoter := fun i a =>
                if i = s.proposalCount ∧ a ∈ voters then true else s.isVoter i a }
          s.proposalCount = ∅ := by
        rw [Finset.eq_empty_iff_forall_not_mem]
        intro a ha
        rw [mem_revealedF] at ha
        exact ha.2 (hInv.fresh_reveal s.proposalCount a le_rfl)
      rw [hempty]
      simp
    · have hset : revealedF
          { s with
              proposalCount := s.proposalCount + 1,
              proposals := fun i =>
                if i = s.proposalCount then
                  { proposer := sender, context := context, phase := Phase.Commit,
                    isPublic := isPublic,
                    commitDeadline := now % UINT64_MOD + d1,
                    revealDeadline := now % UINT64_MOD + d1 + d2,
                    voterCount := voters.length % UINT32_MOD,
                    commitCount := 0, revealCount := 0 }
                else s.proposals i,
              voterLists := fun i =>
                if i = s.proposalCount then s.voterLists i ++ voters else s.voterLists i,
              isVoter := fun i a =>
                if i = s.proposalCount ∧ a ∈ voters then true else s.isVoter i a }
          pid = revealedF s pid := by
        simp only [revealedF]
        dsimp only
        rw [if_neg hp]
      rw [hset, if_neg hp]
      exact hInv.reveal_card pid
  · intro pid
    dsimp only
    by_cases hp : pid = s.proposalCount
    · subst hp
      rw [if_pos rfl, if_pos rfl, hInv.fresh_list s.proposalCount le_rfl]
      simp
    · rw [if_neg hp, if_neg hp]
      exact hInv.vc_eq pid
  · intro pid
    dsimp only
    by_cases hp : pid = s.proposalCount
    · subst hp
      rw [if_pos rfl]
      norm_num [UINT32_MOD]
    · rw [if_neg hp]
      exact hInv.cc_lt pid
  · intro pid
    dsimp only
    by_cases hp : pid = s.proposalCount
    · subst hp
      rw [if_pos rfl]
      norm_num [UINT32_MOD]
    · rw [if_neg hp]
      exact hInv.rc_lt pid

/-- Updating one entry of the map can add at most the updated key to the
nonzero-filtered set. -/
theorem filter_update_subset (l : List Nat) (f : Nat → Nat) (sender c : Nat) :
    (l.toFinset.filter fun a => (if a = sender then c else f a) ≠ 0)
      ⊆ insert sender (l.toFinset.filter fun a => f a ≠ 0) := by
  intro a ha
  rw [Finset.mem_filter] at ha
  obtain ⟨hal, hane⟩ := ha
  by_cases h2 : a = sender
  · exact Finset.mem_insert.mpr (Or.inl h2)
  · rw [if_neg h2] at hane
    exact Finset.mem_insert.mpr (Or.inr (Finset.mem_filter.mpr ⟨hal, hane⟩))

/-- Writing a nonzero value for a listed key inserts exactly that key into
the nonzero-filtered set. -/
theorem filter_update_insert (l : List Nat) (f : Nat → Nat) (sender c : Nat)
    (hmem : sender ∈ l) (hc : c ≠ 0) :
    (l.toFinset.filter fun a => (if a = sender then c else f a) ≠ 0)
      = insert sender (l.toFinset.filter fun a => f a ≠ 0) := by
  ext a
  simp only [Finset.mem_insert, Finset.mem_filter, List.mem_toFinset]
  by_cases h2 : a = sender
  · subst h2
    rw [if_pos rfl]
    simp [hmem, hc]
  · rw [if_neg h2]
    simp [h2]

/-- `commitVote` preserves the invariant (for `nz = true` the submitted
commitment must be nonzero). -/
theorem inv_commit {nz : Bool} {s : State} {sender pid0 c now : Nat} {s' : State}
    {evs : List Event} (hInv : Inv nz s) (hcnz : nz = true → c ≠ 0)
    (h : commitVote s sender pid0 c now = .ok (s', evs)) : Inv nz s' := by
  obtain ⟨hph, hdl, hvoter, hc0, hguard, hs, -⟩ := commitVote_ok h
  subst hs
  have hplt : ¬ s.proposalCount ≤ pid0 := fun hle => by
    rw [hInv.fresh_voter pid0 sender hle] at hvoter
    exact Bool.noConfusion hvoter
  have hsmem : sender ∈ s.voterLists pid0 := (hInv.voter_mem pid0 sender).mp hvoter
  refine
    { fresh_list := hInv.fresh_list, fresh_voter := hInv.fresh_voter,
      fresh_commit := ?_, fresh_reveal := hInv.fresh_reveal,
      fresh_cc := ?_, fresh_rc := ?_, fresh_rd := ?_, fresh_phase := ?_,
      voter_mem := hInv.voter_mem, commit_voter := ?_, reveal_commit := ?_,
      commit_card := ?_, commit_card_nz := ?_, reveal_card := ?_,
      vc_eq := ?_, cc_lt := ?_, rc_lt := ?_ }
  · intro pid a hle
    dsimp only at hle ⊢
    rw [if_neg (fun hx : pid = pid0 ∧ a = sender => hplt (hx.1 ▸ hle))]
    exact hInv.fresh_commit pid a hle
  · intro pid hle
    dsimp only at hle ⊢
    rw [if_neg (fun hx : pid = pid0 => hplt (hx ▸ hle))]
    exact hInv.fresh_cc pid hle
  · intro pid hle
    dsimp only at hle ⊢
    rw [if_neg (fun hx : pid = pid0 => hplt (hx ▸ hle))]
    exact hInv.fresh_rc pid hle
  · intro pid hle
    dsimp only at hle ⊢
    rw [if_neg (fun hx : pid = pid0 => hplt (hx ▸ hle))]
    exact hInv.fresh_rd pid hle
  · intro pid hle
    dsimp only at hle ⊢
    rw [if_neg (fun hx : pid = pid0 => hplt (hx ▸ hle))]
    exact hInv.fresh_phase pid hle
  · intro pid a hne
    dsimp only at hne ⊢
    by_cases hc : pid = pid0 ∧ a = sender
    · rw [hc.1, hc.2]
      exact hvoter
    · rw [if_neg hc] at hne
      exact hInv.commit_voter pid a hne
  · intro pid a hr
    dsimp only at hr ⊢
    by_cases hc : pid = pid0 ∧ a = sender
    · obtain ⟨hcp, hca⟩ := hc
      subst hcp
      subst hca
      exact absurd hc0 (hInv.reveal_commit pid a hr)
    · rw [if_neg hc]
      exact hInv.reveal_commit pid a hr
  · intro pid
    dsimp only [committedF]
    by_cases hp : pid = pid0
    · subst hp
      rw [if_pos rfl]
      simp only [eq_self_iff_true, true_and]
      exact le_trans (Finset.card_le_card (filter_update_subset _ _ _ _))
        (le_trans (Finset.card_insert_le _ _) (Nat.succ_le_succ (hInv.commit_card pid)))
    · rw [if_neg hp,
        filter_ne_congr (fun a _ => by rw [if_neg (fun hx : pid = pid0 ∧ a = sender => hp hx.1)])]
      exact hInv.commit_card pid
  · intro hnz pid
    dsimp only [committedF]
    by_cases hp : pid = pid0
    · subst hp
      rw [if_pos rfl]
      simp only [eq_self_iff_true, true_and]
      rw [filter_update_insert _ _ _ _ hsmem (hcnz hnz),
        Finset.card_insert_of_not_mem (by
          rw [Finset.mem_filter]
          exact fun hx => hx.2 hc0)]
      exact congrArg (· + 1) (hInv.commit_card_nz hnz pid)
    · rw [if_neg hp,
        filter_ne_congr (fun a _ => by rw [if_neg (fun hx : pid = pid0 ∧ a = sender => hp hx.1)])]
      exact hInv.commit_card_nz hnz pid
  · intro pid
    dsimp only
    by_cases hp : pid = pid0
    · subst hp
      rw [if_pos rfl]
      exact hInv.reveal_card pid
    · rw [if_neg hp]
      exact hInv.reveal_card pid
  · intro pid
    dsimp only
    by_cases hp : pid = pid0
    · subst hp
      rw [if_pos rfl]
      exact hInv.vc_eq pid
    · rw [if_neg hp]
      exact hInv.vc_eq pid
  · intro pid
    dsimp only
    by_cases hp : pid = pid0
    · subst hp
      rw [if_pos rfl]
      dsimp only
      have h1 := hInv.cc_lt pid
      omega
    · rw [if_neg hp]
      exact hInv.cc_lt pid
  · intro pid
    dsimp only
    by_cases hp : pid = pid0
    · subst hp
      rw [if_pos rfl]
      exact hInv.rc_lt pid
    · rw [if_neg hp]
      exact hInv.rc_lt pid

/-- `revealSalt` preserves the invariant. -/
theorem inv_reveal {nz : Bool} {s : State} {sender pid0 salt now : Nat} {s' : State}
    {evs : List Event} (hInv : Inv nz s)
    (h : revealSalt s sender pid0 salt now = .ok (s', evs)) : Inv nz s' := by
  obtain ⟨hnf, hcd, hcne, hr0, hsne, hguard, hpc, hvl, hiv, hcm, hrs, hothers,
    hrc, hcc, hvc, hcdl, hrdl, hphase, -⟩ := revealSalt_ok h
  have hplt : ¬ s.proposalCount ≤ pid0 := fun hle =>
    hcne (hInv.fresh_commit pid0 sender hle)
  have hsmem : sender ∈ s.voterLists pid0 :=
    (hInv.voter_mem pid0 sender).mp (hInv.commit_voter pid0 sender hcne)
  have hsetC : ∀ pid, committedF s' pid = committedF s pid := fun pid => by
    simp only [committedF]
    rw [hvl, hcm]
  refine
    { fresh_list := ?_, fresh_voter := ?_, fresh_commit := ?_, fresh_reveal := ?_,
      fresh_cc := ?_, fresh_rc := ?_, fresh_rd := ?_, fresh_phase := ?_,
      voter_mem := ?_, commit_voter := ?_, reveal_commit := ?_,
      commit_card := ?_, commit_card_nz := ?_, reveal_card := ?_,
      vc_eq := ?_, cc_lt := ?_, rc_lt := ?_ }
  · intro pid hle
    rw [hpc] at hle
    rw [hvl]
    exact hInv.fresh_list pid hle
  · intro pid a hle
    rw [hpc] at hle
    rw [hiv]
    exact hInv.fresh_voter pid a hle
  · intro pid a hle
    rw [hpc] at hle
    rw [hcm]
    exact hInv.fresh_commit pid a hle
  · intro pid a hle
    rw [hpc] at hle
    rw [hrs]
    dsimp only
    rw [if_neg (fun hx : pid = pid0 ∧ a = sender => hplt (hx.1 ▸ hle))]
    exact hInv.fresh_reveal pid a hle
  · intro pid hle
    rw [hpc] at hle
    rw [hothers pid (fun he => hplt (he ▸ hle))]
    exact hInv.fresh_cc pid hle
  · intro pid hle
    rw [hpc] at hle
    rw [hothers pid (fun he => hplt (he ▸ hle))]
    exact hInv.fresh_rc pid hle
  · intro pid hle
    rw [hpc] at hle
    rw [hothers pid (fun he => hplt (he ▸ hle))]
    exact hInv.fresh_rd pid hle
  · intro pid hle
    rw [hpc] at hle
    rw [hothers pid (fun he => hplt (he ▸ hle))]
    exact hInv.fresh_phase pid hle
  · intro pid a
    rw [hiv, hvl]
    exact hInv.voter_mem pid a
  · intro pid a hne
    rw [hcm] at hne
    rw [hiv]
    exact hInv.commit_voter pid a hne
  · intro pid a hne
    rw [hcm]
    rw [hrs] at hne
    dsimp only at hne
    by_cases hx : pid = pid0 ∧ a = sender
    · rw [hx.1, hx.2]
      exact hcne
    · rw [if_neg hx] at hne
      exact hInv.reveal_commit pid a hne
  · intro pid
    rw [hsetC pid]
    by_cases hp : pid = pid0
    · subst hp
      rw [hcc]
      exact hInv.commit_card pid
    · rw [hothers pid hp]
      exact hInv.commit_card pid
  · intro hnz pid
    rw [hsetC pid]
    by_cases hp : pid = pid0
    · subst hp
      rw [hcc]
      exact hInv.commit_card_nz hnz pid
    · rw [hothers pid hp]
      exact hInv.commit_card_nz hnz pid
  · intro pid
    by_cases hp : pid = pid0
    · subst hp
      rw [hrc]
      have hset : revealedF s' pid = insert sender (revealedF s pid) := by
        simp only [revealedF]
        rw [hvl, hrs]
        dsimp only
        simp only [eq_self_iff_true, true_and]
        exact filter_update_insert _ _ _ _ hsmem hsne
      rw [hset, Finset.card_insert_of_not_mem (by
        rw [mem_revealedF]
        exact fun hx => hx.2 hr0)]
      exact congrArg (· + 1) (hInv.reveal_card pid)
    · rw [hothers pid hp]
      have hset : revealedF s' pid = revealedF s pid := by
        simp only [revealedF]
        rw [hvl, hrs]
        dsimp only
        exact filter_ne_congr (fun a _ => by
          rw [if_neg (fun hx : pid = pid0 ∧ a = sender => hp hx.1)])
      rw [hset]
      exact hInv.reveal_card pid
  · intro pid
    rw [hvl]
    by_cases hp : pid = pid0
    · subst hp
      rw [hvc]
      exact hInv.vc_eq pid
    · rw [hothers pid hp]
      exact hInv.vc_eq pid
  · intro pid
    by_cases hp : pid = pid0
    · subst hp
      rw [hcc]
      exact hInv.cc_lt pid
    · rw [hothers pid hp]
      exact hInv.cc_lt pid
  · intro pid
    by_cases hp : pid = pid0
    · subst hp
      rw [hrc]
      have h1 := hInv.rc_lt pid
      omega
    · rw [hothers pid hp]
      exact hInv.rc_lt pid

/-- Every step preserves the invariant. -/
theorem inv_step {nz : Bool} {s s' : State} (hInv : Inv nz s) (hstep : Step nz s s') :
    Inv nz s' := by
  cases hstep with
  | announce sender pubKey s2 evs h => exact inv_announce hInv h
  | create sender context voters encryptedSalts isPublic d1 d2 now s2 evs pid h =>
      exact inv_create hInv h
  | commit sender pid c now s2 evs hnz h => exact inv_commit hInv hnz h
  | reveal sender pid salt now s2 evs h => exact inv_reveal hInv h
  | finalize pid now s2 evs h => exact inv_finalize hInv h

/-- Every reachable state satisfies the invariant. -/
theorem reachable_inv {nz : Bool} {s : State} (h : ReachableW nz s) : Inv nz s := by
  induction h with
  | init => exact inv_init nz
  | step s s2 hreach hstep ih => exact inv_step ih hstep

/-! Reachability of the concrete demonstration states. -/

/-- The creation of the demo proposal is a ledger step. -/
theorem step_sCreated (nz : Bool) : Step nz initialState sCreated :=
  Step.create initialState 9 "demo" [1] [[]] false 10 10 0 sCreated
    [Event.VoterInvited 0 1 [], Event.ProposalCreated 0 9 "demo" false 10 20] 0 rfl

/-- Voter `1` committing `42` at time `5` is a ledger step. -/
theorem step_sCommitted (nz : Bool) : Step nz sCreated sCommitted :=
  Step.commit sCreated 1 0 42 5 sCommitted [Event.VoteCommitted 0 1 42]
    (fun _ => by decide) rfl

/-- Voter `1` revealing salt `7` at time `11` is a ledger step. -/
theorem step_sRevealed (nz : Bool) : Step nz sCommitted sRevealed :=
  Step.reveal sCommitted 1 0 7 11 sRevealed
    [Event.SaltRevealed 0 1 7, Event.ProposalFinished 0] rfl

/-- Voter `1` committing the zero value at time `5` is a ledger step. -/
theorem step_sZ1 : Step false sCreated sZ1 :=
  Step.commit sCreated 1 0 0 5 sZ1 [Event.VoteCommitted 0 1 0]
    (fun hx => Bool.noConfusion hx) rfl

/-- Voter `1` committing the zero value again at time `6` is a ledger step. -/
theorem step_sZ2 : Step false sZ1 sZ2 :=
  Step.commit sZ1 1 0 0 6 sZ2 [Event.VoteCommitted 0 1 0]
    (fun hx => Bool.noConfusion hx) rfl

/-- Finalizing the never-created proposal `0` at time `1` is a ledger step. -/
theorem step_sFin0 (nz : Bool) : Step nz initialState sFin0 :=
  Step.finalize initialState 0 1 sFin0 [Event.ProposalFinished 0] rfl

/-- Finalizing the demo proposal at time `21` (nobody revealed) is a ledger
step. -/
theorem step_sFinC (nz : Bool) : Step nz sCreated sFinC :=
  Step.finalize sCreated 0 21 sFinC [Event.ProposalFinished 0] rfl

/-- The creation of the two-voter proposal at time `100` is a ledger step. -/
theorem step_sC8 (nz : Bool) : Step nz initialState sC8 :=
  Step.create initialState 9 "budget" [1, 2] [[], []] false 10 20 100 sC8
    [Event.VoterInvited 0 1 [], Event.VoterInvited 0 2 [],
      Event.ProposalCreated 0 9 "budget" false 110 130] 0 rfl

/-- `sCreated` is reachable (with or without the nonzero-commitment
restriction). -/
theorem reach_sCreated (nz : Bool) : ReachableW nz sCreated :=
  ReachableW.step _ _ ReachableW.init (step_sCreated nz)

/-- `sCommitted` is reachable. -/
theorem reach_sCommitted (nz : Bool) : ReachableW nz sCommitted :=
  ReachableW.step _ _ (reach_sCreated nz) (step_sCommitted nz)

/-- `sRevealed` is reachable. -/
theorem reach_sRevealed (nz : Bool) : ReachableW nz sRevealed :=
  ReachableW.step _ _ (reach_sCommitted nz) (step_sRevealed nz)

/-- `sZ1` is reachable. -/
theorem reach_sZ1 : Reachable sZ1 :=
  ReachableW.step _ _ (reach_sCreated false) step_sZ1

/-- `sZ2` is reachable. -/
theorem reach_sZ2 : Reachable sZ2 :=
  ReachableW.step _ _ reach_sZ1 step_sZ2

/-- `sFin0` is reachable. -/
theorem reach_sFin0 (nz : Bool) : ReachableW nz sFin0 :=
  ReachableW.step _ _ ReachableW.init (step_sFin0 nz)

/-- `sFinC` is reachable. -/
theorem reach_sFinC (nz : Bool) : ReachableW nz sFinC :=
  ReachableW.step _ _ (reach_sCreated nz) (step_sFinC nz)

/-- `sC8` is reachable. -/
theorem reach_sC8 (nz : Bool) : ReachableW nz sC8 :=
  ReachableW.step _ _ ReachableW.init (step_sC8 nz)

/-- C5: `Finished` is terminal — for every proposal whose phase is
`Finished`, `commitVote` fails with `NotInCommitPhase` while `revealSalt` and
`finalizeProposal` fail with `AlreadyFinished`, so no operation changes its
phase (failing calls leave the state untouched). -/
theorem C5_finished_terminal (s : State) (pid sender c salt now : Nat)
    (hph : (s.proposals pid).phase = Phase.Finished) :
    commitVote s sender pid c now = .error Err.NotInCommitPhase ∧
    revealSalt s sender pid salt now = .error Err.AlreadyFinished ∧
    finalizeProposal s pid now = .error Err.AlreadyFinished := by
  have hnc : (s.proposals pid).phase ≠ Phase.Commit := by
    rw [hph]
    intro hx
    exact Phase.noConfusion hx
  refine ⟨?_, ?_, ?_⟩
  · simp only [commitVote, if_pos hnc]
  · simp only [revealSalt, if_pos hph]
  · simp only [finalizeProposal, if_pos hph]

/-- C5 witness: at the concrete finished demo proposal. -/
theorem C5_finished_terminal_witness :
    (sRevealed.proposals 0).phase = Phase.Finished ∧
    (commitVote sRevealed 1 0 9 30 = .error Err.NotInCommitPhase ∧
     revealSalt sRevealed 1 0 9 30 = .error Err.AlreadyFinished ∧
     finalizeProposal sRevealed 0 30 = .error Err.AlreadyFinished) :=
  ⟨by decide, C5_finished_terminal sRevealed 0 1 9 9 30 (by decide)⟩

/-- C9: `commitVote` checks its four preconditions in order — phase exactly
`Commit` (else `NotInCommitPhase`), then `now ≤ commitDeadline` (else
`CommitPhaseEnded`), then membership in the voter set (else `NotAVoter`),
then no stored commitment (else `AlreadyCommitted`); when all hold (and the
`uint32` counter increment does not overflow) the commitment is stored
verbatim and `commitCount` is incremented. -/
theorem C9_commit_check_order (s : State) (sender pid c now : Nat) :
    ((s.proposals pid).phase ≠ Phase.Commit →
      commitVote s sender pid c now = .error Err.NotInCommitPhase) ∧
    ((s.proposals pid).phase = Phase.Commit →
      (s.proposals pid).commitDeadline < now →
      commitVote s sender pid c now = .error Err.CommitPhaseEnded) ∧
    ((s.proposals pid).phase = Phase.Commit →
      now ≤ (s.proposals pid).commitDeadline →
      s.isVoter pid sender = false →
      commitVote s sender pid c now = .error Err.NotAVoter) ∧
    ((s.proposals pid).phase = Phase.Commit →
      now ≤ (s.proposals pid).commitDeadline →
      s.isVoter pid sender = true →
      s.commitments pid sender ≠ 0 →
      commitVote s sender pid c now = .error Err.AlreadyCommitted) ∧
    ((s.proposals pid).phase = Phase.Commit →
      now ≤ (s.proposals pid).commitDeadline →
      s.isVoter pid sender = true →
      s.commitments pid sender = 0 →
      (s.proposals pid).commitCount + 1 ≠ UINT32_MOD →
      commitVote s sender pid c now = .ok
        ({ s with
            commitments := fun i a => if i = pid ∧ a = sender then c else s.commitments i a,
            proposals := fun i =>
              if i = pid then
                { s.proposals pid with commitCount := (s.proposals pid).commitCount + 1 }
              else s.proposals i },
          [Event.VoteCommitted pid sender c])) := by
  refine ⟨?_, ?_, ?_, ?_, ?_⟩
  · intro h1
    simp only [commitVote, if_pos h1]
  · intro h1 h2
    simp only [commitVote, if_neg (not_not_intro h1), if_pos h2]
  · intro h1 h2 h3
    simp only [commitVote, if_neg (not_not_intro h1), if_neg (not_lt.mpr h2), if_pos h3]
  · intro h1 h2 h3 h4
    simp only [commitVote, if_neg (not_not_intro h1), if_neg (not_lt.mpr h2),
      if_neg (show ¬(s.isVoter pid sender = false) by
        rw [h3]; intro hx; exact Bool.noConfusion hx), if_pos h4]
  · intro h1 h2 h3 h4 h5
    simp only [commitVote, if_neg (not_not_intro h1), if_neg (not_lt.mpr h2),
      if_neg (show ¬(s.isVoter pid sender = false) by
        rw [h3]; intro hx; exact Bool.noConfusion hx),
      if_neg (not_not_intro h4), if_neg h5]

/-- C9 witness: the phase check fires first on a finished proposal, and the
deadline check fires before the voter check on the live demo proposal. -/
theorem C9_commit_check_order_witness :
    ((sRevealed.proposals 0).phase ≠ Phase.Commit ∧
      commitVote sRevealed 1 0 5 2 = .error Err.NotInCommitPhase) ∧
    ((sCreated.proposals 0).phase = Phase.Commit ∧
      (sCreated.proposals 0).commitDeadline < 11 ∧
      commitVote sCreated 2 0 42 11 = .error Err.CommitPhaseEnded) ∧
    ((sCreated.proposals 0).phase = Phase.Commit ∧ (5 : Nat) ≤ 10 ∧
      sCreated.isVoter 0 2 = false ∧
      commitVote sCreated 2 0 42 5 = .error Err.NotAVoter) ∧
    ((sCommitted.proposals 0).phase = Phase.Commit ∧ (9 : Nat) ≤ 10 ∧
      sCommitted.isVoter 0 1 = true ∧ sCommitted.commitments 0 1 ≠ 0 ∧
      commitVote sCommitted 1 0 99 9 = .error Err.AlreadyCommitted) :=
  ⟨⟨by decide, (C9_commit_check_order sRevealed 1 0 5 2).1 (by decide)⟩,
   ⟨by decide, by decide,
     (C9_commit_check_order sCreated 2 0 42 11).2.1 (by decide) (by decide)⟩,
   ⟨by decide, by decide, by decide,
     (C9_commit_check_order sCreated 2 0 42 5).2.2.1 (by decide) (by decide) (by decide)⟩,
   ⟨by decide, by decide, by decide, by decide,
     (C9_commit_check_order sCommitted 1 0 99 9).2.2.2.1 (by decide) (by decide)
       (by decide) (by decide)⟩⟩

/-- C3 counterexample: `finalizeProposal` moves the demo proposal directly
from `Commit` to `Finished` at time `21` (nobody ever revealed), refuting
"no operation moves a proposal from Commit directly to Finished". -/
theorem C3_counterexample :
    Reachable sCreated ∧ (sCreated.proposals 0).phase = Phase.Commit ∧
    finalizeProposal sCreated 0 21 = .ok (sFinC, [Event.ProposalFinished 0]) ∧
    (sFinC.proposals 0).phase = Phase.Finished :=
  ⟨reach_sCreated false, by decide, rfl, by decide⟩

/-- C3 amended: every transition of a proposal into `Finished` happens either
during `revealSalt` the moment the new `revealCount` equals `commitCount`, or
via `finalizeProposal` once `now > revealDeadline`; `finalizeProposal` does
not require the `Reveal` phase, so the move may start from `Commit`. -/
theorem C3_finished_transitions {nz : Bool} {s s' : State} (pid : Nat)
    (hstep : Step nz s s')
    (hnf : (s.proposals pid).phase ≠ Phase.Finished)
    (hfin : (s'.proposals pid).phase = Phase.Finished) :
    (∃ sender salt now evs, revealSalt s sender pid salt now = .ok (s', evs) ∧
       (s'.proposals pid).revealCount = (s'.proposals pid).commitCount) ∨
    (∃ now evs, finalizeProposal s pid now = .ok (s', evs) ∧
       (s.proposals pid).revealDeadline < now) := by
  cases hstep with
  | announce sender pubKey s2 evs h =>
      obtain ⟨-, hs, -⟩ := announceKey_ok h
      subst hs
      exact absurd hfin hnf
  | create sender context voters encryptedSalts isPublic d1 d2 now s2 evs rpid h =>
      obtain ⟨-, -, -, -, -, -, -, hs, -⟩ := createProposal_ok h
      subst hs
      dsimp only at hfin
      by_cases hp : pid = s.proposalCount
      · subst hp
        rw [if_pos rfl] at hfin
        exact Phase.noConfusion hfin
      · rw [if_neg hp] at hfin
        exact absurd hfin hnf
  | commit sender pid0 c now s2 evs hnz h =>
      obtain ⟨-, -, -, -, -, hs, -⟩ := commitVote_ok h
      subst hs
      dsimp only at hfin
      by_cases hp : pid = pid0
      · subst hp
        rw [if_pos rfl] at hfin
        exact absurd hfin hnf
      · rw [if_neg hp] at hfin
        exact absurd hfin hnf
  | reveal sender pid0 salt now s2 evs h =>
      obtain ⟨-, -, -, -, -, -, -, -, -, -, -, hothers, hrc, hcc, -, -, -, hphase, -⟩ :=
        revealSalt_ok h
      by_cases hp : pid = pid0
      · subst hp
        rw [hphase] at hfin
        by_cases hq : (s.proposals pid).revealCount + 1 = (s.proposals pid).commitCount
        · refine Or.inl ⟨sender, salt, now, evs, h, ?_⟩
          rw [hrc, hcc]
          exact hq
        · rw [if_neg hq] at hfin
          exact Phase.noConfusion hfin
      · rw [hothers pid hp] at hfin
        exact absurd hfin hnf
  | finalize pid0 now s2 evs h =>
      obtain ⟨-, hrd, hs, -⟩ := finalizeProposal_ok h
      subst hs
      dsimp only at hfin
      by_cases hp : pid = pid0
      · subst hp
        exact Or.inr ⟨now, evs, h, hrd⟩
      · rw [if_neg hp] at hfin
        exact absurd hfin hnf

/-- C3 witness: the concrete `finalizeProposal` step taking the demo proposal
from `Commit` to `Finished` falls under the amended disjunction. -/
theorem C3_finished_transitions_witness :
    Step false sCreated sFinC ∧ (sCreated.proposals 0).phase ≠ Phase.Finished ∧
    (sFinC.proposals 0).phase = Phase.Finished ∧
    ((∃ sender salt now evs, revealSalt sCreated sender 0 salt now = .ok (sFinC, evs) ∧
        (sFinC.proposals 0).revealCount = (sFinC.proposals 0).commitCount) ∨
     (∃ now evs, finalizeProposal sCreated 0 now = .ok (sFinC, evs) ∧
        (sCreated.proposals 0).revealDeadline < now)) :=
  ⟨step_sFinC false, by decide, by decide,
    C3_finished_transitions 0 (step_sFinC false) (by decide) (by decide)⟩

/-- C10 counterexample: the never-created proposal `0` (`0 ≥ proposalCount`)
can be finalized once, after which a second `finalizeProposal` at `now = 2 > 0`
fails with `AlreadyFinished` — refuting "calling finalizeProposal at any time
now > 0 succeeds". -/
theorem C10_counterexample :
    Reachable sFin0 ∧ sFin0.proposalCount ≤ 0 ∧ (0 : Nat) < 2 ∧
    finalizeProposal sFin0 0 2 = .error Err.AlreadyFinished :=
  ⟨reach_sFin0 false, by decide, by decide, rfl⟩

/-- C10 amended: `finalizeProposal` performs no existence check — for every
reachable state, never-created proposal id (`id ≥ proposalCount`) and time
`now > 0`, provided that id has not itself already been finalized, the stored
record is the default one (phase `Commit`, `revealDeadline = 0`) and the call
succeeds, setting the phase to `Finished` and emitting `ProposalFinished`. -/
theorem C10_finalize_nonexistent {nz : Bool} (s : State) (pid now : Nat)
    (hreach : ReachableW nz s) (hge : s.proposalCount ≤ pid) (hnow : 0 < now)
    (hnf : (s.proposals pid).phase ≠ Phase.Finished) :
    (s.proposals pid).phase = Phase.Commit ∧
    (s.proposals pid).revealDeadline = 0 ∧
    ∃ s', finalizeProposal s pid now = .ok (s', [Event.ProposalFinished pid]) ∧
      (s'.proposals pid).phase = Phase.Finished ∧
      s'.proposalCount = s.proposalCount := by
  have hInv := reachable_inv hreach
  have hphase : (s.proposals pid).phase = Phase.Commit := by
    have hnr := hInv.fresh_phase pid hge
    cases hq : (s.proposals pid).phase
    · rfl
    · exact absurd hq hnr
    · exact absurd hq hnf
  have hrd := hInv.fresh_rd pid hge
  have hgt : ¬(now ≤ (s.proposals pid).revealDeadline) := by
    rw [hrd]
    omega
  have hfin : finalizeProposal s pid now = .ok
      ({ s with proposals := fun i =>
          if i = pid then { s.proposals pid with phase := Phase.Finished }
          else s.proposals i },
        [Event.ProposalFinished pid]) := by
    simp only [finalizeProposal, if_neg hnf, if_neg hgt]
  refine ⟨hphase, hrd, _, hfin, ?_, rfl⟩
  dsimp only
  rw [if_pos rfl]

/-- C10 witness: finalizing the never-created proposal `5` on a fresh
deployment at time `1`. -/
theorem C10_finalize_nonexistent_witness :
    ReachableW false initialState ∧ initialState.proposalCount ≤ 5 ∧ (0 : Nat) < 1 ∧
    (initialState.proposals 5).phase ≠ Phase.Finished ∧
    ((initialState.proposals 5).phase = Phase.Commit ∧
     (initialState.proposals 5).revealDeadline = 0 ∧
     ∃ s', finalizeProposal initialState 5 1 = .ok (s', [Event.ProposalFinished 5]) ∧
       (s'.proposals 5).phase = Phase.Finished ∧
       s'.proposalCount = initialState.proposalCount) :=
  ⟨ReachableW.init, by decide, by decide, by decide,
    @C10_finalize_nonexistent false initialState 5 1 ReachableW.init (by decide)
      (by decide) (by decide)⟩

/-- C2 counterexample: after a successful commit (resp. auto-finishing
reveal), a second `commitVote` after the commit deadline fails with
`CommitPhaseEnded` (not `AlreadyCommitted`), and a second `revealSalt` after
the proposal finished fails with `AlreadyFinished` (not `AlreadyRevealed`) —
the stored values are still never overwritten. -/
theorem C2_counterexample :
    Reachable sCommitted ∧
    commitVote sCreated 1 0 42 5 = .ok (sCommitted, [Event.VoteCommitted 0 1 42]) ∧
    sCommitted.commitments 0 1 = 42 ∧
    commitVote sCommitted 1 0 99 11 = .error Err.CommitPhaseEnded ∧
    Err.CommitPhaseEnded ≠ Err.AlreadyCommitted ∧
    revealSalt sCommitted 1 0 7 11
      = .ok (sRevealed, [Event.SaltRevealed 0 1 7, Event.ProposalFinished 0]) ∧
    sRevealed.revealedSalts 0 1 = 7 ∧
    revealSalt sRevealed 1 0 8 12 = .error Err.AlreadyFinished ∧
    Err.AlreadyFinished ≠ Err.AlreadyRevealed :=
  ⟨reach_sCommitted false, rfl, by decide, rfl, by decide, rfl, by decide, rfl, by decide⟩

/-- C2 amended: a stored commitment (resp. revealed salt) is never
overwritten — a second `commitVote` (resp. `revealSalt`) by the same voter
never succeeds and no operation changes the stored value; the error is
`AlreadyCommitted` (resp. `AlreadyRevealed`) exactly when the earlier
phase/deadline checks pass, otherwise the earlier phase or timing error is
reported first. -/
theorem C2_immutable_amended {nz : Bool} (s : State) (pid sender : Nat)
    (hreach : ReachableW nz s) :
    (s.commitments pid sender ≠ 0 →
      (∀ c now s' evs, commitVote s sender pid c now ≠ .ok (s', evs)) ∧
      (∀ c now, (s.proposals pid).phase = Phase.Commit →
        now ≤ (s.proposals pid).commitDeadline →
        commitVote s sender pid c now = .error Err.AlreadyCommitted) ∧
      (∀ s', Step nz s s' → s'.commitments pid sender = s.commitments pid sender)) ∧
    (s.revealedSalts pid sender ≠ 0 →
      (∀ t now s' evs, revealSalt s sender pid t now ≠ .ok (s', evs)) ∧
      (∀ t now, (s.proposals pid).phase ≠ Phase.Finished →
        ((s.proposals pid).phase = Phase.Commit →
          (s.proposals pid).commitDeadline < now) →
        revealSalt s sender pid t now = .error Err.AlreadyRevealed) ∧
      (∀ s', Step nz s s' → s'.revealedSalts pid sender = s.revealedSalts pid sender)) := by
  have hInv := reachable_inv hreach
  constructor
  · intro hcne
    refine ⟨?_, ?_, ?_⟩
    · intro c now s' evs hok
      exact hcne (commitVote_ok hok).2.2.2.1
    · intro c now hph hle
      simp only [commitVote, if_neg (not_not_intro hph), if_neg (not_lt.mpr hle),
        if_neg (show ¬(s.isVoter pid sender = false) by
          rw [hInv.commit_voter pid sender hcne]
          intro hx
          exact Bool.noConfusion hx),
        if_pos hcne]
    · intro s' hstep
      cases hstep with
      | announce sender1 pubKey s2 evs h =>
          obtain ⟨-, hs, -⟩ := announceKey_ok h
          subst hs
          rfl
      | create sender1 context voters encryptedSalts isPublic d1 d2 now s2 evs rpid h =>
          obtain ⟨-, -, -, -, -, -, -, hs, -⟩ := createProposal_ok h
          subst hs
          rfl
      | commit sender1 pid1 c1 now1 s2 evs hnz h =>
          obtain ⟨-, -, -, hc0, -, hs, -⟩ := commitVote_ok h
          subst hs
          dsimp only
          by_cases hx : pid = pid1 ∧ sender = sender1
          · rw [hx.1, hx.2] at hcne
            exact absurd hc0 hcne
          · rw [if_neg hx]
      | reveal sender1 pid1 salt1 now1 s2 evs h =>
          obtain ⟨-, -, -, -, -, -, -, -, -, hcm, -⟩ := revealSalt_ok h
          rw [hcm]
      | finalize pid1 now1 s2 evs h =>
          obtain ⟨-, -, hs, -⟩ := finalizeProposal_ok h
          subst hs
          rfl
  · intro hrne
    have hcne : s.commitments pid sender ≠ 0 := hInv.reveal_commit pid sender hrne
    refine ⟨?_, ?_, ?_⟩
    · intro t now s' evs hok
      exact hrne (revealSalt_ok hok).2.2.2.1
    · intro t now hnf hcd
      simp only [revealSalt, if_neg hnf,
        if_neg (show ¬((s.proposals pid).phase = Phase.Commit ∧
            now ≤ (s.proposals pid).commitDeadline) from
          fun hx => not_le.mpr (hcd hx.1) hx.2),
        if_neg hcne, if_pos hrne]
    · intro s' hstep
      cases hstep with
      | announce sender1 pubKey s2 evs h =>
          obtain ⟨-, hs, -⟩ := announceKey_ok h
          subst hs
          rfl
      | create sender1 context voters encryptedSalts isPublic d1 d2 now s2 evs rpid h =>
          obtain ⟨-, -, -, -, -, -, -, hs, -⟩ := createProposal_ok h
          subst hs
          rfl
      | commit sender1 pid1 c1 now1 s2 evs hnz h =>
          obtain ⟨-, -, -, -, -, hs, -⟩ := commitVote_ok h
          subst hs
          rfl
      | reveal sender1 pid1 salt1 now1 s2 evs h =>
          obtain ⟨-, -, -, hr0, -, -, -, -, -, -, hrs, -⟩ := revealSalt_ok h
          rw [hrs]
          dsimp only
          by_cases hx : pid = pid1 ∧ sender = sender1
          · rw [hx.1, hx.2] at hrne
            exact absurd hr0 hrne
          · rw [if_neg hx]
      | finalize pid1 now1 s2 evs h =>
          obtain ⟨-, -, hs, -⟩ := finalizeProposal_ok h
          subst hs
          rfl

/-- C2 witness: for the committed demo voter, a second commit within the
commit window fails with `AlreadyCommitted`. -/
theorem C2_immutable_amended_witness :
    Reachable sCommitted ∧ sCommitted.commitments 0 1 ≠ 0 ∧
    commitVote sCommitted 1 0 99 9 = .error Err.AlreadyCommitted :=
  ⟨reach_sCommitted false, by decide,
    ((C2_immutable_amended sCommitted 0 1 (reach_sCommitted false)).1 (by decide)).2.1
      99 9 (by decide) (by decide)⟩

/-- C1 counterexample: `commitVote` never rejects the all-zero commitment,
so the demo voter commits zero twice; in the resulting reachable state
`commitCount = 2` exceeds `voterCount = 1`, refuting
`revealCount ≤ commitCount ≤ voterCount` (the first inequality still
holds there). -/
theorem C1_counterexample :
    Reachable sZ2 ∧
    (sZ2.proposals 0).revealCount ≤ (sZ2.proposals 0).commitCount ∧
    ¬((sZ2.proposals 0).commitCount ≤ (sZ2.proposals 0).voterCount) :=
  ⟨reach_sZ2, by decide, by decide⟩

/-- C1 amended: in every reachable state and for every proposal,
`commitCount` and `revealCount` are monotonically non-decreasing under every
operation and `revealCount ≤ commitCount` holds; `commitCount ≤ voterCount`
additionally holds provided every `commitVote` submitted a nonzero commitment
(`nz = true`) and the proposal has fewer than `2^32` voters (`voterCount` is
the `uint32` truncation of the voter-list length). -/
theorem C1_counts (nz : Bool) (s : State) (hreach : ReachableW nz s) :
    (∀ pid, (s.proposals pid).revealCount ≤ (s.proposals pid).commitCount) ∧
    (∀ s', Step nz s s' → ∀ pid,
      (s.proposals pid).commitCount ≤ (s'.proposals pid).commitCount ∧
      (s.proposals pid).revealCount ≤ (s'.proposals pid).revealCount) ∧
    (nz = true → ∀ pid, (s.voterLists pid).length < UINT32_MOD →
      (s.proposals pid).commitCount ≤ (s.proposals pid).voterCount) := by
  have hInv := reachable_inv hreach
  refine ⟨?_, ?_, ?_⟩
  · intro pid
    rw [hInv.reveal_card pid]
    refine le_trans (Finset.card_le_card ?_) (hInv.commit_card pid)
    intro a ha
    rw [mem_revealedF] at ha
    rw [mem_committedF]
    exact ⟨ha.1, hInv.reveal_commit pid a ha.2⟩
  · intro s' hstep pid
    cases hstep with
    | announce sender pubKey s2 evs h =>
        obtain ⟨-, hs, -⟩ := announceKey_ok h
        subst hs
        exact ⟨le_refl _, le_refl _⟩
    | create sender context voters encryptedSalts isPublic d1 d2 now s2 evs rpid h =>
        obtain ⟨-, -, -, -, -, -, -, hs, -⟩ := createProposal_ok h
        subst hs
        dsimp only
        by_cases hp : pid = s.proposalCount
        · subst hp
          rw [if_pos rfl, hInv.fresh_cc s.proposalCount le_rfl,
            hInv.fresh_rc s.proposalCount le_rfl]
          exact ⟨le_refl 0, le_refl 0⟩
        · rw [if_neg hp]
          exact ⟨le_refl _, le_refl _⟩
    | commit sender pid0 c now s2 evs hnz h =>
        obtain ⟨-, -, -, -, -, hs, -⟩ := commitVote_ok h
        subst hs
        dsimp only
        by_cases hp : pid = pid0
        · subst hp
          rw [if_pos rfl]
          exact ⟨Nat.le_succ _, le_refl _⟩
        · rw [if_neg hp]
          exact ⟨le_refl _, le_refl _⟩
    | reveal sender pid0 salt now s2 evs h =>
        obtain ⟨-, -, -, -, -, -, -, -, -, -, -, hothers, hrc, hcc, -⟩ := revealSalt_ok h
        by_cases hp : pid = pid0
        · subst hp
          rw [hrc, hcc]
          exact ⟨le_refl _, Nat.le_succ _⟩
        · rw [hothers pid hp]
          exact ⟨le_refl _, le_refl _⟩
    | finalize pid0 now s2 evs h =>
        obtain ⟨-, -, hs, -⟩ := finalizeProposal_ok h
        subst hs
        dsimp only
        by_cases hp : pid = pid0
        · subst hp
          rw [if_pos rfl]
          exact ⟨le_refl _, le_refl _⟩
        · rw [if_neg hp]
          exact ⟨le_refl _, le_refl _⟩
  · intro hnz pid hlen
    rw [hInv.commit_card_nz hnz pid, hInv.vc_eq pid, Nat.mod_eq_of_lt hlen]
    exact le_trans (Finset.card_le_card (Finset.filter_subset _ _))
      (List.toFinset_card_le _)

/-- C1 witness: the amended bounds at the committed demo state, along the
zero-free execution. -/
theorem C1_counts_witness :
    ReachableW true sCommitted ∧
    ((∀ pid, (sCommitted.proposals pid).revealCount
        ≤ (sCommitted.proposals pid).commitCount) ∧
     (∀ s', Step true sCommitted s' → ∀ pid,
       (sCommitted.proposals pid).commitCount ≤ (s'.proposals pid).commitCount ∧
       (sCommitted.proposals pid).revealCount ≤ (s'.proposals pid).revealCount) ∧
     (true = true → ∀ pid, (sCommitted.voterLists pid).length < UINT32_MOD →
       (sCommitted.proposals pid).commitCount ≤ (sCommitted.proposals pid).voterCount)) :=
  ⟨reach_sCommitted true, C1_counts true sCommitted (reach_sCommitted true)⟩

/-- C4: the reveal deadline is soft — in every reachable state, for a
proposal that is not `Finished` with `now > commitDeadline`, a `revealSalt`
call by a voter with a stored nonzero commitment, no prior reveal and a
nonzero salt succeeds (in particular even when `now > revealDeadline`);
only `finalizeProposal` enforces the `revealDeadline` boundary. -/
theorem C4_soft_reveal_deadline {nz : Bool} (s : State) (sender pid salt now : Nat)
    (hreach : ReachableW nz s)
    (hnf : (s.proposals pid).phase ≠ Phase.Finished)
    (hcdlt : (s.proposals pid).commitDeadline < now)
    (hcne : s.commitments pid sender ≠ 0)
    (hr0 : s.revealedSalts pid sender = 0)
    (hsne : salt ≠ 0) :
    ∃ s' evs, revealSalt s sender pid salt now = .ok (s', evs) ∧
      s'.revealedSalts pid sender = salt := by
  have hInv := reachable_inv hreach
  have hsmem : sender ∈ s.voterLists pid :=
    (hInv.voter_mem pid sender).mp (hInv.commit_voter pid sender hcne)
  have hsubRC : revealedF s pid ⊆ committedF s pid := by
    intro a ha
    rw [mem_revealedF] at ha
    rw [mem_committedF]
    exact ⟨ha.1, hInv.reveal_commit pid a ha.2⟩
  have hsC : sender ∈ committedF s pid := mem_committedF.mpr ⟨hsmem, hcne⟩
  have hsR : sender ∉ revealedF s pid := fun hx => (mem_revealedF.mp hx).2 hr0
  have hlt : (revealedF s pid).card < (committedF s pid).card :=
    Finset.card_lt_card (Finset.ssubset_def.mpr ⟨hsubRC, fun hsub => hsR (hsub hsC)⟩)
  have hrc_lt_cc : (s.proposals pid).revealCount < (s.proposals pid).commitCount := by
    rw [hInv.reveal_card pid]
    exact lt_of_lt_of_le hlt (hInv.commit_card pid)
  have hguard : ¬((s.proposals pid).revealCount + 1 = UINT32_MOD) := by
    have hcclt := hInv.cc_lt pid
    omega
  have hg2 : ¬((s.proposals pid).phase = Phase.Commit ∧
      now ≤ (s.proposals pid).commitDeadline) :=
    fun hx => not_le.mpr hcdlt hx.2
  have hg4 : ¬(s.revealedSalts pid sender ≠ 0) := fun hx => hx hr0
  have hp1 : (if (s.proposals pid).phase = Phase.Commit
      then { s.proposals pid with phase := Phase.Reveal }
      else s.proposals pid).revealCount = (s.proposals pid).revealCount := by
    by_cases hc : (s.proposals pid).phase = Phase.Commit
    · rw [if_pos hc]
    · rw [if_neg hc]
  cases hres : revealSalt s sender pid salt now with
  | error e =>
      simp only [revealSalt, if_neg hnf, if_neg hg2, if_neg hcne, if_neg hg4,
        if_neg hsne, hp1, if_neg hguard] at hres
      exact Except.noConfusion hres
  | ok pair =>
      obtain ⟨-, -, -, -, -, -, -, -, -, -, hrs, -⟩ := revealSalt_ok hres
      refine ⟨pair.1, pair.2, rfl, ?_⟩
      rw [hrs]
      dsimp only
      rw [if_pos ⟨rfl, rfl⟩]

/-- C4 witness: the demo voter reveals at `now = 100`, far past the reveal
deadline `20`, and the call succeeds. -/
theorem C4_soft_reveal_deadline_witness :
    Reachable sCommitted ∧ (sCommitted.proposals 0).phase ≠ Phase.Finished ∧
    (sCommitted.proposals 0).commitDeadline < 100 ∧
    (sCommitted.proposals 0).revealDeadline < 100 ∧
    sCommitted.commitments 0 1 ≠ 0 ∧ sCommitted.revealedSalts 0 1 = 0 ∧ (7 : Nat) ≠ 0 ∧
    ∃ s' evs, revealSalt sCommitted 1 0 7 100 = .ok (s', evs) ∧
      s'.revealedSalts 0 1 = 7 :=
  ⟨reach_sCommitted false, by decide, by decide, by decide, by decide, by decide, by decide,
    C4_soft_reveal_deadline sCommitted 1 0 7 100 (reach_sCommitted false) (by decide)
      (by decide) (by decide) (by decide) (by decide)⟩

/-- C8: a successful `createProposal` at time `T < 2^64` with durations
`D1, D2` (necessarily nonzero) yields `commitDeadline = T + D1` and
`revealDeadline = T + D1 + D2`, hence `revealDeadline > commitDeadline > T`;
a `commitVote` at `T + D1 + 1` fails with `CommitPhaseEnded`, and one at
`T + D1 - 1` by an invited voter succeeds and stores the commitment. -/
theorem C8_deadlines {nz : Bool} (s : State) (sender : Nat) (context : String)
    (voters : List Nat) (encryptedSalts : List (List Nat)) (isPublic : Bool)
    (d1 d2 T : Nat) (s' : State) (evs : List Event) (pid : Nat)
    (hreach : ReachableW nz s)
    (h : createProposal s sender context voters encryptedSalts isPublic d1 d2 T
          = .ok (s', evs, pid))
    (hT : T < UINT64_MOD) :
    (s'.proposals pid).commitDeadline = T + d1 ∧
    (s'.proposals pid).revealDeadline = T + d1 + d2 ∧
    T < T + d1 ∧ T + d1 < T + d1 + d2 ∧
    (∀ v c, commitVote s' v pid c (T + d1 + 1) = .error Err.CommitPhaseEnded) ∧
    (∀ v c, v ∈ voters →
      ∃ s2 evs2, commitVote s' v pid c (T + d1 - 1) = .ok (s2, evs2) ∧
        s2.commitments pid v = c) := by
  have hInv := reachable_inv hreach
  obtain ⟨-, -, hd1, hd2, -, -, hpid, hs, -⟩ := createProposal_ok h
  subst hpid
  have hTm : T % UINT64_MOD = T := Nat.mod_eq_of_lt hT
  have hP : s'.proposals s.proposalCount
      = ⟨sender, context, Phase.Commit, isPublic, T + d1, T + d1 + d2,
          voters.length % UINT32_MOD, 0, 0⟩ := by
    rw [hs]
    try dsimp only
    rw [if_pos rfl, hTm]
  have hV : ∀ v, v ∈ voters → s'.isVoter s.proposalCount v = true := by
    intro v hv
    rw [hs]
    try dsimp only
    rw [if_pos ⟨rfl, hv⟩]
  have hC : ∀ v, s'.commitments s.proposalCount v = 0 := by
    intro v
    rw [hs]
    exact hInv.fresh_commit s.proposalCount v le_rfl
  refine ⟨by rw [hP], by rw [hP], by omega, by omega, ?_, ?_⟩
  · intro v c
    simp only [commitVote, hP]
    rw [if_neg (show ¬(Phase.Commit ≠ Phase.Commit) from fun hx => hx rfl),
      if_pos (show T + d1 < T + d1 + 1 by omega)]
  · intro v c hv
    cases hres : commitVote s' v s.proposalCount c (T + d1 - 1) with
    | error e =>
        simp only [commitVote, hP, hV v hv, hC v] at hres
        rw [if_neg (show ¬(Phase.Commit ≠ Phase.Commit) from fun hx => hx rfl),
          if_neg (show ¬(T + d1 < T + d1 - 1) by omega),
          if_neg (show ¬(true = false) from fun hx => Bool.noConfusion hx),
          if_neg (show ¬((0 : Nat) ≠ 0) from fun hx => hx rfl),
          if_neg (show ¬((0 : Nat) + 1 = UINT32_MOD) by decide)] at hres
        exact Except.noConfusion hres
    | ok pair =>
        obtain ⟨-, -, -, -, -, hs2, -⟩ := commitVote_ok hres
        refine ⟨pair.1, pair.2, rfl, ?_⟩
        rw [hs2]
        dsimp only
        rw [if_pos ⟨rfl, rfl⟩]

/-- C8 witness: creating at `T = 100` with `D1 = 10`, `D2 = 20` gives
deadlines `110` and `130`; committing at `111` fails with `CommitPhaseEnded`
and committing at `109` succeeds. -/
theorem C8_deadlines_witness :
    Reachable initialState ∧
    createProposal initialState 9 "budget" [1, 2] [[], []] false 10 20 100
      = .ok (sC8, [Event.VoterInvited 0 1 [], Event.VoterInvited 0 2 [],
          Event.ProposalCreated 0 9 "budget" false 110 130], 0) ∧
    (100 : Nat) < UINT64_MOD ∧
    ((sC8.proposals 0).commitDeadline = 100 + 10 ∧
     (sC8.proposals 0).revealDeadline = 100 + 10 + 20 ∧
     (100 : Nat) < 100 + 10 ∧ (100 : Nat) + 10 < 100 + 10 + 20 ∧
     (∀ v c, commitVote sC8 v 0 c (100 + 10 + 1) = .error Err.CommitPhaseEnded) ∧
     (∀ v c, v ∈ [1, 2] →
       ∃ s2 evs2, commitVote sC8 v 0 c (100 + 10 - 1) = .ok (s2, evs2) ∧
         s2.commitments 0 v = c)) :=
  ⟨ReachableW.init, rfl, by decide,
    @C8_deadlines false initialState 9 "budget" [1, 2] [[], []] false 10 20 100 sC8
      [Event.VoterInvited 0 1 [], Event.VoterInvited 0 2 [],
        Event.ProposalCreated 0 9 "budget" false 110 130] 0
      ReachableW.init rfl (by decide)⟩

end Corevo

namespace CorevoCrypto

/-- C6: the on-chain `computeCommitment` and the client-side
`computeCommitment` compute the same function, namely the hash of the packed
concatenation of the single-byte vote tag (`Aye = 1`, `Nay = 2`,
`Abstain = 3`), the 32-byte `oneTimeSalt` and the 32-byte `commonSalt`, in
that order with no length prefixes (65 bytes in total). -/
theorem C6_commitment_equivalence (keccak : List Nat → Nat) (v : Vote) (a b : Nat) :
    contractComputeCommitment keccak v.toNat a b = computeCommitment keccak v a b ∧
    computeCommitment keccak v a b = keccak (specPackedCommitment v a b) ∧
    specPackedCommitment v a b = v.toNat :: (be32 a ++ be32 b) ∧
    (Vote.toNat Vote.Aye = 1 ∧ Vote.toNat Vote.Nay = 2 ∧ Vote.toNat Vote.Abstain = 3) ∧
    (be32 a).length = 32 ∧ (be32 b).length = 32 ∧
    (specPackedCommitment v a b).length = 65 := by
  refine ⟨rfl, ?_, rfl, ⟨rfl, rfl, rfl⟩, ?_, ?_, ?_⟩
  · cases v <;> rfl
  · simp [be32]
  · simp [be32]
  · simp [specPackedCommitment, be32]

/-- C7: `verifyVote` is a round-trip inverse of `computeCommitment` — when
the three candidate hashes are pairwise distinct, verifying the commitment of
vote `v` returns exactly `some v`; and when no candidate hash equals the
commitment, it returns `none`. -/
theorem C7_verify_roundtrip (keccak : List Nat → Nat) (a b : Nat)
    (h12 : computeCommitment keccak Vote.Aye a b ≠ computeCommitment keccak Vote.Nay a b)
    (h13 : computeCommitment keccak Vote.Aye a b
      ≠ computeCommitment keccak Vote.Abstain a b)
    (h23 : computeCommitment keccak Vote.Nay a b
      ≠ computeCommitment keccak Vote.Abstain a b) :
    (∀ v, verifyVote keccak (computeCommitment keccak v a b) a b = some v) ∧
    (∀ c, computeCommitment keccak Vote.Aye a b ≠ c →
      computeCommitment keccak Vote.Nay a b ≠ c →
      computeCommitment keccak Vote.Abstain a b ≠ c →
      verifyVote keccak c a b = none) := by
  constructor
  · intro v
    have e12 : (computeCommitment keccak Vote.Aye a b
        == computeCommitment keccak Vote.Nay a b) = false := beq_eq_false_iff_ne.mpr h12
    have e13 : (computeCommitment keccak Vote.Aye a b
        == computeCommitment keccak Vote.Abstain a b) = false := beq_eq_false_iff_ne.mpr h13
    have e23 : (computeCommitment keccak Vote.Nay a b
        == computeCommitment keccak Vote.Abstain a b) = false := beq_eq_false_iff_ne.mpr h23
    cases v <;> simp [verifyVote, List.find?, e12, e13, e23]
  · intro c hA hN hAb
    have eA : (computeCommitment keccak Vote.Aye a b == c) = false :=
      beq_eq_false_iff_ne.mpr hA
    have eN : (computeCommitment keccak Vote.Nay a b == c) = false :=
      beq_eq_false_iff_ne.mpr hN
    have eAb : (computeCommitment keccak Vote.Abstain a b == c) = false :=
      beq_eq_false_iff_ne.mpr hAb
    simp [verifyVote, List.find?, eA, eN, eAb]

/-- C7 witness: with the first-byte hash, the three candidate hashes are the
distinct tags `1, 2, 3`; verifying the `Nay` commitment returns `Nay`, and
verifying a value matching no candidate returns `none`. -/
theorem C7_verify_roundtrip_witness :
    (computeCommitment (fun l => l.headD 0) Vote.Aye 5 7
       ≠ computeCommitment (fun l => l.headD 0) Vote.Nay 5 7) ∧
    (computeCommitment (fun l => l.headD 0) Vote.Aye 5 7
       ≠ computeCommitment (fun l => l.headD 0) Vote.Abstain 5 7) ∧
    (computeCommitment (fun l => l.headD 0) Vote.Nay 5 7
       ≠ computeCommitment (fun l => l.headD 0) Vote.Abstain 5 7) ∧
    verifyVote (fun l => l.headD 0)
      (computeCommitment (fun l => l.headD 0) Vote.Nay 5 7) 5 7 = some Vote.Nay ∧
    (computeCommitment (fun l => l.headD 0) Vote.Aye 5 7 ≠ 0) ∧
    (computeCommitment (fun l => l.headD 0) Vote.Nay 5 7 ≠ 0) ∧
    (computeCommitment (fun l => l.headD 0) Vote.Abstain 5 7 ≠ 0) ∧
    verifyVote (fun l => l.headD 0) 0 5 7 = none :=
  ⟨by decide, by decide, by decide,
   (C7_verify_roundtrip (fun l => l.headD 0) 5 7 (by decide) (by decide)
      (by decide)).1 Vote.Nay,
   by decide, by decide, by decide,
   (C7_verify_roundtrip (fun l => l.headD 0) 5 7 (by decide) (by decide)
      (by decide)).2 0 (by decide) (by decide) (by decide)⟩

end CorevoCrypto
